import Mathlib

/-!
Verification development for the menu-selection and content-lookup logic of
`fiber/templatetags/fiber_tags.py` (django-fiber).

The program is embedded shallowly: the page store (the ORM table) is a
`List Page`, querysets are list filters over the store, and the stable sort
performed by Python's `list.sort` / SQL `ORDER BY` is `List.insertionSort`
(a stable sort).  Fallible operations return `Except TagError`.
-/

namespace FiberSpec

/-- A `Page` row: an MPTT tree node.  `parent` is the parent's id (a foreign
key), `lft`/`rght` are the nested-set interval bounds, `tree_id` identifies
the tree, `level` is the depth (root = 0).  `is_public` is the value of the
per-user visibility predicate `is_public_for_user(user)` evaluated at the
ambient request user, and `show_in_menu` is the page's menu flag. -/
structure Page where
  id : Nat
  title : String
  parent : Option Nat
  level : Nat
  lft : Nat
  rght : Nat
  tree_id : Nat
  show_in_menu : Bool
  is_public : Bool
  deriving Repr, DecidableEq

/-- A `ContentItem` row: a named content fragment.  `content_html` stands for
its (externally rendered) content; a freshly created item has empty content. -/
structure ContentItem where
  id : Nat
  name : String
  content_html : String
  deriving Repr, DecidableEq

/-- A `PageContentItem` row: associates a `ContentItem` to a `Page` inside a
named block, with a `sort` order. -/
structure PageContentItem where
  id : Nat
  page_id : Nat
  content_item_id : Nat
  block_name : String
  sort : Nat
  deriving Repr, DecidableEq

/-- A content item annotated with its association record, as built by
`show_page_content` (`content_item.page_content_item = page_content_item`). -/
structure AnnotatedContentItem where
  item : ContentItem
  page_content_item : PageContentItem
  deriving Repr, DecidableEq

/-- The arguments of the `show_menu` tag / `MenuHelper`. -/
structure MenuArgs where
  menu_name : String
  min_level : Nat
  max_level : Nat
  expand : Option String
  deriving Repr, DecidableEq

/-- Errors raised by the embedded tag functions: `Page.DoesNotExist` /
`ContentItem.DoesNotExist` (with message), `MultipleObjectsReturned`,
`TemplateSyntaxError` (with message), and the Python `TypeError` raised by
`reduce` on an empty sequence. -/
inductive TagError where
  | doesNotExist (msg : String)
  | multipleObjectsReturned
  | templateSyntaxError (msg : String)
  | typeError
  deriving Repr, DecidableEq

/-- Values stored in a template rendering context. -/
inductive CtxVal where
  | vPage (p : Page)
  | vOptPage (p : Option Page)
  | vPages (ps : List Page)
  | vMenuArgs (a : MenuArgs)
  | vStr (s : String)
  | vOptContentItem (c : Option ContentItem)
  | vAnnotated (items : List AnnotatedContentItem)
  | vClassPage
  | vClassContentItem
  deriving Repr, DecidableEq

/-- A template rendering context, as a key/value list (later bindings shadow
earlier ones, modelling `dict.update`). -/
abbrev Ctx := List (String × CtxVal)

deriving instance DecidableEq for Except

/-- Look a key up in a context. -/
def ctxLookup (ctx : Ctx) (k : String) : Option CtxVal :=
  (ctx.find? (fun kv => kv.1 == k)).map (fun kv => kv.2)

/-- Set one key of a context, as the assignment context[k] = v does. -/
def ctxSet (ctx : Ctx) (k : String) (v : CtxVal) : Ctx :=
  (k, v) :: ctx

/-- Embeds `context.update({...})`. -/
def ctxUpdate (ctx : Ctx) (kvs : List (String × CtxVal)) : Ctx :=
  kvs.foldl (fun c kv => ctxSet c kv.1 kv.2) ctx

/-- Ordering by `lft`, used by the stable sort `menu_pages.sort(key=operator.attrgetter(lft))`. -/
def pageLe (p q : Page) : Prop := p.lft ≤ q.lft

instance : DecidableRel pageLe := fun p q => inferInstanceAs (Decidable (p.lft ≤ q.lft))

instance : IsTotal Page pageLe := ⟨fun p q => Nat.le_total p.lft q.lft⟩

instance : IsTrans Page pageLe := ⟨fun _ _ _ h h2 => Nat.le_trans h h2⟩

/-- Ordering by `sort`, used by the query `.order_by(sort)`. -/
def pciLe (a b : PageContentItem) : Prop := a.sort ≤ b.sort

instance : DecidableRel pciLe := fun a b => inferInstanceAs (Decidable (a.sort ≤ b.sort))

instance : IsTotal PageContentItem pciLe := ⟨fun a b => Nat.le_total a.sort b.sort⟩

instance : IsTrans PageContentItem pciLe := ⟨fun _ _ _ h h2 => Nat.le_trans h h2⟩

/-- The message of the `Page.DoesNotExist` raised by `MenuHelper.get_root`. -/
def rootNotFoundMsg (menu_name : String) : String :=
  "Menu does not exist.\nNo top-level page found with the title \x27" ++ menu_name ++ "\x27."

/-- Embeds `MenuHelper.get_root`: `Page.objects.get(title=self.menu_name, parent=None)`,
re-raising `DoesNotExist` with a message naming the menu.  Django's `get`
raises `MultipleObjectsReturned` when more than one row matches. -/
def getRoot (store : List Page) (menu_name : String) : Except TagError Page :=
  match store.filter (fun p => p.title == menu_name && p.parent == none) with
  | [] => .error (.doesNotExist (rootNotFoundMsg menu_name))
  | [p] => .ok p
  | _ => .error .multipleObjectsReturned

/-- Modelled from the spec: `Page.is_child_of` (defined in `fiber/models.py`,
which is not under src/) — the current page lies strictly inside the root's
tree: same `tree_id`, and its nested-set interval strictly inside the root's. -/
def isChildOf (current root : Page) : Bool :=
  current.tree_id == root.tree_id && root.lft < current.lft && current.rght < root.rght

/-- Modelled from the spec: `root.get_descendants(include_self=True)` — nested-set
descendants of `root` (nodes of the same tree whose interval is contained in
the root's interval), including the root itself. -/
def descendantsIncludeSelf (store : List Page) (root : Page) : List Page :=
  store.filter (fun p => p.tree_id == root.tree_id && root.lft ≤ p.lft && p.rght ≤ root.rght)

/-- Embeds `tree = root.get_descendants(include_self=True).filter(level__lte=self.max_level)`. -/
def menuTree (store : List Page) (root : Page) (max_level : Nat) : List Page :=
  (descendantsIncludeSelf store root).filter (fun p => p.level ≤ max_level)

/-- Fetch a row by primary key (`find?` over the store). -/
def findById (store : List Page) (i : Nat) : Option Page :=
  store.find? (fun q => q.id == i)

/-- The `while p.parent_id is not None:` loop of `get_menu_for_current_page`,
as the list of `(p, p.parent)` pairs visited.  `none` models the
`DoesNotExist` raised when a parent foreign key has no matching row; `fuel`
bounds the walk (callers pass `store.length`, enough for any acyclic store). -/
def ancestorChain (store : List Page) : Page → Nat → Option (List (Page × Page))
  | _, 0 => some []
  | p, fuel + 1 =>
    match p.parent with
    | none => some []
    | some pid =>
      match findById store pid with
      | none => none
      | some par => (ancestorChain store par fuel).map (fun rest => (p, par) :: rest)

/-- Embeds `route = tree.filter(lft__lt=current.lft, rght__gt=current.rght)`. -/
def routePred (current q : Page) : Bool :=
  q.lft < current.lft && current.rght < q.rght

/-- Embeds `reduce(operator.or_, sibling_qs)`: a node is a route sibling when some
visited pair `(p, p.parent)` has `level=p.level, lft__gt=p.parent.lft,
rght__lt=p.parent.rght`. -/
def siblingPred (chain : List (Page × Page)) (q : Page) : Bool :=
  chain.any (fun pr => q.level == pr.1.level && pr.2.lft < q.lft && q.rght < pr.2.rght)

/-- Embeds `children = tree.filter(lft__gt=current.lft, rght__lt=current.rght)`,
restricted to `level=current.level + 1` unless expand is all_descendants. -/
def childPred (expand : Option String) (current q : Page) : Bool :=
  current.lft < q.lft && q.rght < current.rght &&
    (expand == some "all_descendants" || q.level == current.level + 1)

/-- Embeds `MenuHelper.get_menu_for_current_page`.  Queryset union (`|`) is the
disjunction of the row conditions over the same store.  When the current page
has no parent the Python code calls `reduce` on an empty list of querysets,
raising `TypeError`. -/
def getMenuForCurrentPage (store : List Page) (root current : Page) (a : MenuArgs) :
    Except TagError (List Page) :=
  let tree := menuTree store root a.max_level
  if a.expand = some "all" then
    .ok tree
  else if current.level + 1 < a.min_level then
    .ok []
  else
    match ancestorChain store current store.length with
    | none => .error (.doesNotExist "Page matching query does not exist.")
    | some [] => .error .typeError
    | some chain =>
      .ok (tree.filter (fun q =>
        routePred current q || siblingPred chain q || childPred a.expand current q))

/-- Python truthiness of the `expand` argument (`not self.expand`):
`None` and the empty string are falsy. -/
def expandFalsy (e : Option String) : Bool :=
  match e with
  | none => true
  | some s => s == ""

/-- The `needed_pages` selection of `MenuHelper.get_menu` when the current page
is absent or not inside the menu root's tree. -/
def selectNotInTree (store : List Page) (root : Page) (a : MenuArgs) : List Page :=
  if a.min_level = 1 then
    if expandFalsy a.expand then
      (store.filter (fun p => p.tree_id == root.tree_id)).filter (fun p => p.level ≤ 1)
    else if a.expand = some "all" then
      (store.filter (fun p => p.tree_id == root.tree_id)).filter (fun p => p.level ≤ a.max_level)
    else []
  else []

/-- Embeds `MenuHelper.filter_min_level`. -/
def filter_min_level (min_level : Nat) (menu_pages : List Page) : List Page :=
  menu_pages.filter (fun p => min_level ≤ p.level)

/-- The per-page test of `MenuHelper.filter_for_user`:
`p.show_in_menu and p.is_public_for_user(user)`. -/
def visible (p : Page) : Bool :=
  p.show_in_menu && p.is_public

/-- Embeds `MenuHelper.filter_for_user`. -/
def filter_for_user (menu_pages : List Page) : List Page :=
  menu_pages.filter visible

/-- Resolve `page.parent` to the parent row (as `link_parent_objects` /
lazy foreign-key access does). -/
def findParent (store : List Page) (p : Page) : Option Page :=
  p.parent.bind (findById store)

/-- The tail of `MenuHelper.get_menu`: `link_parent_objects` (semantically the
identity on the selected rows), `filter_min_level`, `filter_for_user`, the
stable sort by `lft`, and the computation of `self.menu_parent`. -/
def postProcess (store : List Page) (root : Page) (a : MenuArgs) (needed : List Page) :
    List Page × Option Page :=
  let menu_pages := List.insertionSort pageLe (filter_for_user (filter_min_level a.min_level needed))
  let menu_parent :=
    match menu_pages with
    | p :: _ => findParent store p
    | [] => if a.min_level = 1 then some root else none
  (menu_pages, menu_parent)

/-- Embeds `MenuHelper.get_menu`, returning the sorted menu pages together with the
menu parent.  The fiber_page argument is the value of self.context.get(fiber_page). -/
def getMenu (store : List Page) (fiber_page : Option Page) (a : MenuArgs) :
    Except TagError (List Page × Option Page) :=
  match getRoot store a.menu_name with
  | .error e => .error e
  | .ok root =>
    match (match fiber_page with
           | some current =>
             if isChildOf current root then getMenuForCurrentPage store root current a
             else Except.ok (selectNotInTree store root a)
           | none => Except.ok (selectNotInTree store root a)) with
    | .error e => .error e
    | .ok needed => .ok (postProcess store root a needed)

/-- The menu page list alone. -/
def getMenuPages (store : List Page) (fiber_page : Option Page) (a : MenuArgs) :
    Except TagError (List Page) :=
  (getMenu store fiber_page a).map Prod.fst

/-- The `fiber_page` entry of a context, when it holds a page. -/
def ctxFiberPage (ctx : Ctx) : Option Page :=
  match ctxLookup ctx "fiber_page" with
  | some (.vPage p) => some p
  | _ => none

/-- The `show_menu` tag: runs the helper on a copy of the context and returns
the copy updated with the menu data (`get_context_data`). -/
def show_menu (store : List Page) (ctx : Ctx) (a : MenuArgs) : Except TagError Ctx :=
  match getMenu store (ctxFiberPage ctx) a with
  | .error e => .error e
  | .ok (pages, mp) =>
    .ok (ctxUpdate ctx [("Page", .vClassPage), ("fiber_menu_pages", .vPages pages),
      ("fiber_menu_parent_page", .vOptPage mp), ("fiber_menu_args", .vMenuArgs a)])

/-- The largest id in a content-item store (0 when empty); used to give a
freshly created item an unused id. -/
def maxItemId (items : List ContentItem) : Nat :=
  items.foldl (fun m c => Nat.max m c.id) 0

/-- Embeds the `show_content` tag: `ContentItem.objects.get(name__exact=...)`,
auto-creating a missing item when `AUTO_CREATE_CONTENT_ITEMS` is on (the
`auto_create` argument).  Returns the updated context (the tag assigns
`context[content_item] = content_item` in place) together with the resulting
item store. -/
def show_content (items : List ContentItem) (auto_create : Bool) (ctx : Ctx)
    (content_item_name : String) : Except TagError (Ctx × List ContentItem) :=
  match items.filter (fun c => c.name == content_item_name) with
  | [] =>
    if auto_create then
      let fresh : ContentItem := ⟨maxItemId items + 1, content_item_name, ""⟩
      .ok (ctxSet ctx "content_item" (.vOptContentItem (some fresh)), items ++ [fresh])
    else
      .ok (ctxSet ctx "content_item" (.vOptContentItem none), items)
  | [c] => .ok (ctxSet ctx "content_item" (.vOptContentItem (some c)), items)
  | _ => .error .multipleObjectsReturned

/-- Modelled from the spec: the `fiber/content_item.html` template (not under
src/) renders an absent content item as the empty string. -/
def renderContentItemBlock : Option ContentItem → String
  | none => ""
  | some c => c.content_html

/-- Embeds `page.page_content_items.filter(block_name=block_name).order_by(sort)`:
the association rows of the page in the named block, stably sorted by `sort`. -/
def pageContentQuery (pcis : List PageContentItem) (page : Page) (block : String) :
    List PageContentItem :=
  List.insertionSort pciLe
    (pcis.filter (fun a => a.page_id == page.id && a.block_name == block))

/-- Embeds `select_related(content_item)` plus the annotation loop: fetch each
association's content item and attach the association to it.  `none` models a
dangling foreign key (a store-integrity failure). -/
def resolveContentItems (cis : List ContentItem) :
    List PageContentItem → Option (List AnnotatedContentItem)
  | [] => some []
  | a :: rest =>
    match cis.find? (fun c => c.id == a.content_item_id) with
    | none => none
    | some c => (resolveContentItems cis rest).map (fun xs => ⟨c, a⟩ :: xs)

/-- The annotated, ordered content items of a page in a named block. -/
def pageContentItemsFor (pcis : List PageContentItem) (cis : List ContentItem)
    (page : Page) (block : String) : Option (List AnnotatedContentItem) :=
  resolveContentItems cis (pageContentQuery pcis page block)

/-- The first positional argument of `show_page_content`: either a block name
string or an explicit page. -/
inductive PageOrBlockName where
  | str (s : String)
  | page (p : Page)
  deriving Repr, DecidableEq

/-- The message of the `TemplateSyntaxError` raised on a bad call shape. -/
def invalidArgsMsg : String :=
  "\x27show_page_content\x27 received invalid arguments"

/-- The message of the `TemplateSyntaxError` raised when the implicit
`fiber_page` is missing from the context. -/
def missingFiberPageMsg : String :=
  "\x27show_page_content\x27 requires \x27fiber_page\x27 to be in the template context"

/-- The successful tail of `show_page_content`: query, annotate, and return a
copy of the context updated with the content data. -/
def renderPageContent (pcis : List PageContentItem) (cis : List ContentItem)
    (ctx : Ctx) (page : Page) (block : String) : Except TagError Ctx :=
  match pageContentItemsFor pcis cis page block with
  | none => .error (.doesNotExist "ContentItem matching query does not exist.")
  | some items =>
    .ok (ctxUpdate ctx [("fiber_page", .vPage page), ("ContentItem", .vClassContentItem),
      ("fiber_block_name", .vStr block), ("fiber_content_items", .vAnnotated items)])

/-- Embeds the `show_page_content` tag, including its argument-shape checks:
a single string argument uses the context's `fiber_page` (raising a
`TemplateSyntaxError` when the key is absent); a page plus a truthy block
name uses that page; anything else raises a `TemplateSyntaxError`. -/
def show_page_content (pcis : List PageContentItem) (cis : List ContentItem)
    (ctx : Ctx) (page_or_block_name : PageOrBlockName) (block_name : Option String) :
    Except TagError Ctx :=
  match page_or_block_name, block_name with
  | .str s, none =>
    match ctxLookup ctx "fiber_page" with
    | some (.vPage page) => renderPageContent pcis cis ctx page s
    | some _ => .error .typeError
    | none => .error (.templateSyntaxError missingFiberPageMsg)
  | .page p, some b =>
    if b = "" then .error (.templateSyntaxError invalidArgsMsg)
    else renderPageContent pcis cis ctx p b
  | _, _ => .error (.templateSyntaxError invalidArgsMsg)

/-- Modelled from the spec: a persisted entity as seen by `get_editable_attrs`;
`admin_url` is the result of `get_admin_change_url` (fiber.utils.urls, not
under src/), the entity's admin change URL. -/
structure Entity where
  admin_url : String
  deriving Repr, DecidableEq

/-- JSON string escaping of one character, as `json.dumps` performs on the
URL value (quote and backslash escaped). -/
def jsonEscapeChar (c : Char) : String :=
  if c = '"' then "\\\"" else if c = '\\' then "\\\\" else String.singleton c

/-- JSON string escaping of a whole string. -/
def jsonEscape (s : String) : String :=
  String.join (s.toList.map jsonEscapeChar)

/-- Embeds `json.dumps({"url": get_admin_change_url(instance)})`. -/
def jsonDumpsUrl (url : String) : String :=
  "\x7b\"url\": \"" ++ jsonEscape url ++ "\"\x7d"

/-- Embeds `get_editable_attrs`. -/
def get_editable_attrs (e : Entity) : String :=
  "data-fiber-data=\x27" ++ jsonDumpsUrl e.admin_url ++ "\x27"

/-- Embeds `EditableAttrsNode.render`: resolve the stored variable name in the
context; a failed resolution (`VariableDoesNotExist`) renders the empty
string. -/
def editableAttrsRender (ctx : List (String × Entity)) (instance_var : String) : String :=
  match (ctx.find? (fun kv => kv.1 == instance_var)).map (fun kv => kv.2) with
  | none => ""
  | some e => get_editable_attrs e

/-- Hide one page record: clear `show_in_menu`, or make the visibility
predicate reject it, according to `kill_menu_flag`. -/
def hideUpdate (kill_menu_flag : Bool) (p : Page) : Page :=
  if kill_menu_flag then { p with show_in_menu := false } else { p with is_public := false }

/-- The per-record transform of `hideStore`. -/
def hPage (n : Nat) (kill_menu_flag : Bool) (p : Page) : Page :=
  if p.id = n then hideUpdate kill_menu_flag p else p

/-- A store identical to `store` except that the node with id `n` is hidden
(by flag or by permission). -/
def hideStore (store : List Page) (n : Nat) (kill_menu_flag : Bool) : List Page :=
  store.map (hPage n kill_menu_flag)

/-- Well-formedness of a page store as a nested-set forest: ids are unique,
strict interval containment within one tree decreases with depth (an
enclosing node has a smaller `level`), parentless nodes are roots
(`level = 0`), and every parent foreign key resolves to a node of the same
tree whose interval strictly contains the child's and whose level is one
less. -/
def wfStore (store : List Page) : Prop :=
  (∀ p ∈ store, ∀ q ∈ store, p.id = q.id → p = q) ∧
  (∀ p ∈ store, ∀ q ∈ store, p.tree_id = q.tree_id → q.lft < p.lft → p.rght < q.rght →
    q.level < p.level) ∧
  (∀ p ∈ store, p.parent = none → p.level = 0) ∧
  (∀ p ∈ store, ∀ pid ∈ p.parent.toList, ∃ q ∈ store, q.id = pid ∧ q.tree_id = p.tree_id ∧
    q.lft < p.lft ∧ p.rght < q.rght ∧ q.level + 1 = p.level)

/-- The selected set as the specification words it for a current page strictly
inside the tree with no expansion: the strict ancestors of the current page
within the root's subtree restricted to `level ≤ max_level`, together with —
for every node `p` on the path from the current page up to the root's
children — the nodes at the level of `p` whose interval falls strictly inside
the interval of the parent of `p`, together with the immediate children
(`level = current.level + 1`) of the current page; minus nodes below
`min_level`, minus invisible nodes; sorted by `lft`. -/
def menuSpecC2 (store : List Page) (root current : Page) (a : MenuArgs) : List Page :=
  let tree := menuTree store root a.max_level
  let chain := (ancestorChain store current store.length).getD []
  let selected := tree.filter (fun q =>
    (q.lft < current.lft && current.rght < q.rght) ||
    chain.any (fun pr => q.level == pr.1.level && pr.2.lft < q.lft && q.rght < pr.2.rght) ||
    (current.lft < q.lft && q.rght < current.rght && q.level == current.level + 1))
  List.insertionSort pageLe
    ((selected.filter (fun p => a.min_level ≤ p.level)).filter visible)

/-- A concrete well-formed store used as witness material: a root page Main
with children A and B, a grandchild A1 under A with its own child A1a, and a
child B1 under B. -/
def pgMain : Page := ⟨1, "Main", none, 0, 1, 12, 1, true, true⟩

def pgA : Page := ⟨2, "A", some 1, 1, 2, 7, 1, true, true⟩

def pgA1 : Page := ⟨3, "A1", some 2, 2, 3, 6, 1, true, true⟩

def pgA1a : Page := ⟨4, "A1a", some 3, 3, 4, 5, 1, true, true⟩

def pgB : Page := ⟨5, "B", some 1, 1, 8, 11, 1, true, true⟩

def pgB1 : Page := ⟨6, "B1", some 5, 2, 9, 10, 1, true, true⟩

def cexStore : List Page := [pgMain, pgA, pgA1, pgA1a, pgB, pgB1]

/-- A concrete context holding the current page. -/
def cexCtx : Ctx := [("user", CtxVal.vStr "alice"), ("fiber_page", CtxVal.vPage pgA1a)]

/-- Concrete content fixtures. -/
def ciFooter : ContentItem := ⟨1, "footer", "footer html"⟩

def ciBody : ContentItem := ⟨2, "body", "body html"⟩

def cexContentItems : List ContentItem := [ciFooter, ciBody]

def pciA : PageContentItem := ⟨1, 2, 1, "main", 2⟩

def pciB : PageContentItem := ⟨2, 2, 2, "main", 1⟩

def pciC : PageContentItem := ⟨3, 2, 1, "main", 1⟩

def cexPCIs : List PageContentItem := [pciA, pciB, pciC]

def cexEntity : Entity := ⟨"/admin/fiber/page/1/"⟩

/-! ## Helper lemmas -/

theorem getRoot_eq_ok {store : List Page} {nm : String} {root : Page}
    (h : getRoot store nm = .ok root) :
    root ∈ store ∧ root.title = nm ∧ root.parent = none := by
  unfold getRoot at h
  split at h
  · exact absurd h (by simp)
  · rename_i p hf
    cases h
    have hp : root ∈ store.filter (fun p => p.title == nm && p.parent == none) := by
      rw [hf]; exact List.mem_singleton_self root
    have hmem := List.mem_filter.mp hp
    have h2 := hmem.2
    simp only [Bool.and_eq_true, beq_iff_eq] at h2
    exact ⟨hmem.1, h2.1, h2.2⟩
  · exact absurd h (by simp)

/-! ## C3: missing menu root -/

/-- C3: if no top-level page carries the menu name, menu selection fails with
a DoesNotExist error whose message contains the menu name, and the error
propagates unchanged out of the `show_menu` tag; if such a page exists, the
root lookup never produces a DoesNotExist error. -/
theorem menu_root_not_found (store : List Page) (ctx : Ctx) (a : MenuArgs) :
    ((∀ p ∈ store, ¬(p.title = a.menu_name ∧ p.parent = none)) →
      show_menu store ctx a = .error (.doesNotExist (rootNotFoundMsg a.menu_name)) ∧
      ∃ s t, rootNotFoundMsg a.menu_name = s ++ a.menu_name ++ t) ∧
    ((∃ p ∈ store, p.title = a.menu_name ∧ p.parent = none) →
      ∀ msg, getRoot store a.menu_name ≠ .error (.doesNotExist msg)) := by
  constructor
  · intro hnone
    have hf : store.filter (fun p => p.title == a.menu_name && p.parent == none) = [] := by
      refine List.filter_eq_nil_iff.mpr ?_
      intro p hp
      have hcontra := hnone p hp
      simp only [Bool.and_eq_true, beq_iff_eq]
      tauto
    constructor
    · simp [show_menu, getMenu, getRoot, hf]
    · exact ⟨"Menu does not exist.\nNo top-level page found with the title \x27", "\x27.", rfl⟩
  · rintro ⟨p, hp, ht, hpar⟩ msg h
    unfold getRoot at h
    split at h
    · rename_i hf
      have hmem : p ∈ store.filter (fun p => p.title == a.menu_name && p.parent == none) :=
        List.mem_filter.mpr ⟨hp, by simp [ht, hpar]⟩
      rw [hf] at hmem
      exact absurd hmem (List.not_mem_nil p)
    · exact absurd h (by simp)
    · exact absurd h (by simp)

/-- Witness for C3, at a concrete empty store and at the concrete example
store. -/
theorem menu_root_not_found_witness :
    show_menu [] [] ⟨"Missing", 1, 999, none⟩ =
      .error (.doesNotExist (rootNotFoundMsg "Missing")) ∧
    getRoot cexStore "Main" ≠ .error (.doesNotExist "nope") :=
  ⟨((menu_root_not_found [] [] ⟨"Missing", 1, 999, none⟩).1 (by decide)).1,
   (menu_root_not_found cexStore [] ⟨"Main", 1, 999, none⟩).2
     ⟨pgMain, by decide, rfl, rfl⟩ "nope"⟩

/-! ## C4: menu parent derivation -/

/-- C4: the derived menu parent is the parent of the first (lowest-lft) node
of the final sorted output when that output is non-empty; the root itself
when the output is empty and min_level is 1; and absent when the output is
empty and min_level exceeds 1. -/
theorem menu_parent_derivation (store : List Page) (pg : Option Page) (a : MenuArgs)
    (root : Page) (pages : List Page) (mp : Option Page)
    (hroot : getRoot store a.menu_name = .ok root)
    (h : getMenu store pg a = .ok (pages, mp)) :
    (∀ p rest, pages = p :: rest → mp = findParent store p ∧ ∀ q ∈ pages, p.lft ≤ q.lft) ∧
    (pages = [] → a.min_level = 1 → mp = some root) ∧
    (pages = [] → 1 < a.min_level → mp = none) := by
  simp only [getMenu, hroot] at h
  split at h
  · exact absurd h (by simp)
  · rename_i needed hneeded
    simp only [postProcess, Except.ok.injEq, Prod.mk.injEq] at h
    obtain ⟨hp, hm⟩ := h
    refine ⟨?_, ?_, ?_⟩
    · intro p rest hcons
      constructor
      · rw [← hm, hp, hcons]
      · have hs : List.Sorted pageLe pages := by
          rw [← hp]; exact List.sorted_insertionSort pageLe _
        rw [hcons] at hs
        intro q hq
        rw [hcons] at hq
        rcases List.mem_cons.mp hq with rfl | hq
        · exact Nat.le_refl _
        · exact List.rel_of_sorted_cons hs q hq
    · intro hnil h1
      rw [← hm, hp, hnil]
      simp [if_pos h1]
    · intro hnil h1
      rw [← hm, hp, hnil]
      simp only []
      rw [if_neg (by omega)]

/-- Witness for C4 at the concrete store (non-empty output, and an empty
output with large min_level). -/
theorem menu_parent_derivation_witness :
    (getMenu cexStore (some pgA1a) ⟨"Main", 1, 999, none⟩).map
        (fun r => r.2) = .ok (some pgMain) ∧
    (getMenu cexStore (some pgA1a) ⟨"Main", 5, 999, none⟩).map
        (fun r => r.2) = .ok none := by
  constructor
  · have h := menu_parent_derivation cexStore (some pgA1a) ⟨"Main", 1, 999, none⟩
      pgMain [pgA, pgA1, pgA1a, pgB] (some pgMain) (by decide) (by decide)
    have := (h.1 pgA [pgA1, pgA1a, pgB] rfl).1
    decide
  · have h := menu_parent_derivation cexStore (some pgA1a) ⟨"Main", 5, 999, none⟩
      pgMain [] none (by decide) (by decide)
    have := h.2.2 rfl (by decide)
    decide

/-! ## C6: show_page_content argument errors -/

/-- C6: calls that match neither accepted argument shape (a single block name,
or an explicit page plus a block name) fail with the invalid-arguments
TemplateSyntaxError — in particular an explicit page with no block name —
while a single-block-name call whose context lacks fiber_page fails with the
distinct missing-context TemplateSyntaxError. -/
theorem page_content_argument_errors (pcis : List PageContentItem) (cis : List ContentItem)
    (ctx : Ctx) (arg : PageOrBlockName) (bn : Option String) :
    ((¬ ∃ s, arg = .str s ∧ bn = none) → (¬ ∃ p b, arg = .page p ∧ bn = some b) →
      show_page_content pcis cis ctx arg bn = .error (.templateSyntaxError invalidArgsMsg)) ∧
    (∀ p, show_page_content pcis cis ctx (.page p) none =
      .error (.templateSyntaxError invalidArgsMsg)) ∧
    ((∃ s, arg = .str s) → bn = none → ctxLookup ctx "fiber_page" = none →
      show_page_content pcis cis ctx arg bn =
        .error (.templateSyntaxError missingFiberPageMsg)) ∧
    invalidArgsMsg ≠ missingFiberPageMsg := by
  refine ⟨?_, ?_, ?_, by decide⟩
  · intro h1 h2
    cases arg with
    | str s =>
      cases bn with
      | none => exact absurd ⟨s, rfl, rfl⟩ h1
      | some b => rfl
    | page p =>
      cases bn with
      | none => rfl
      | some b => exact absurd ⟨p, b, rfl, rfl⟩ h2
  · intro p; rfl
  · rintro ⟨s, rfl⟩ rfl hl
    simp [show_page_content, hl]

/-- Witness for C6 at concrete bad calls. -/
theorem page_content_argument_errors_witness :
    show_page_content cexPCIs cexContentItems cexCtx (.page pgA) none =
      .error (.templateSyntaxError invalidArgsMsg) ∧
    show_page_content cexPCIs cexContentItems [] (.str "main") none =
      .error (.templateSyntaxError missingFiberPageMsg) :=
  ⟨(page_content_argument_errors cexPCIs cexContentItems cexCtx (.page pgA) none).2.1 pgA,
   (page_content_argument_errors cexPCIs cexContentItems [] (.str "main") none).2.2.1
     ⟨"main", rfl⟩ rfl rfl⟩

/-! ## C8: named content item lookup -/

theorem le_foldl_max_init (l : List ContentItem) :
    ∀ init : Nat, init ≤ l.foldl (fun m c => Nat.max m c.id) init := by
  induction l with
  | nil => intro init; exact Nat.le_refl _
  | cons a t ih =>
    intro init
    exact Nat.le_trans (Nat.le_max_left init a.id) (ih (Nat.max init a.id))

theorem mem_le_foldl_max (l : List ContentItem) :
    ∀ init : Nat, ∀ c ∈ l, c.id ≤ l.foldl (fun m c => Nat.max m c.id) init := by
  induction l with
  | nil => intro _ c hc; exact absurd hc (List.not_mem_nil c)
  | cons a t ih =>
    intro init c hc
    rcases List.mem_cons.mp hc with rfl | hc
    · exact Nat.le_trans (Nat.le_max_right init c.id) (le_foldl_max_init t _)
    · exact ih _ c hc

/-- C8: with no matching item and auto-creation off, the lookup returns an
absent item, renders empty, and leaves the store unchanged; with
auto-creation on it creates and returns a new empty item bearing the name;
with a (unique) matching item, that item is returned regardless of the
auto-creation setting. -/
theorem content_item_lookup (items : List ContentItem) (ctx : Ctx) (name : String) :
    (items.filter (fun c => c.name == name) = [] →
      show_content items false ctx name =
        .ok (ctxSet ctx "content_item" (.vOptContentItem none), items) ∧
      renderContentItemBlock none = "") ∧
    (items.filter (fun c => c.name == name) = [] →
      ∃ fresh, show_content items true ctx name =
          .ok (ctxSet ctx "content_item" (.vOptContentItem (some fresh)), items ++ [fresh]) ∧
        fresh.name = name ∧ fresh.content_html = "" ∧ ∀ c ∈ items, c.id ≠ fresh.id) ∧
    (∀ auto_create c, items.filter (fun c => c.name == name) = [c] →
      show_content items auto_create ctx name =
        .ok (ctxSet ctx "content_item" (.vOptContentItem (some c)), items)) := by
  refine ⟨?_, ?_, ?_⟩
  · intro hf
    exact ⟨by simp [show_content, hf], rfl⟩
  · intro hf
    refine ⟨⟨maxItemId items + 1, name, ""⟩, by simp [show_content, hf], rfl, rfl, ?_⟩
    intro c hc
    have := mem_le_foldl_max items 0 c hc
    simp only [maxItemId]
    omega
  · intro auto_create c hf
    cases auto_create <;> simp [show_content, hf]

/-- Witness for C8 at concrete stores: the "footer" example with the item
absent, auto-creation on with the item absent, and a present item. -/
theorem content_item_lookup_witness :
    (show_content [ciBody] false [] "footer" =
      .ok (ctxSet [] "content_item" (.vOptContentItem none), [ciBody]) ∧
     renderContentItemBlock none = "") ∧
    (∃ fresh, show_content [ciBody] true [] "footer" =
        .ok (ctxSet [] "content_item" (.vOptContentItem (some fresh)), [ciBody] ++ [fresh]) ∧
      fresh.name = "footer" ∧ fresh.content_html = "" ∧ ∀ c ∈ [ciBody], c.id ≠ fresh.id) ∧
    show_content cexContentItems false [] "footer" =
      .ok (ctxSet [] "content_item" (.vOptContentItem (some ciFooter)), cexContentItems) :=
  ⟨(content_item_lookup [ciBody] [] "footer").1 (by decide),
   (content_item_lookup [ciBody] [] "footer").2.1 (by decide),
   (content_item_lookup cexContentItems [] "footer").2.2 false ciFooter (by decide)⟩

/-! ## C9: context copy semantics -/

theorem ctxLookup_update_of_ne (kvs : List (String × CtxVal)) :
    ∀ (ctx : Ctx) (k : String), (∀ kv ∈ kvs, kv.1 ≠ k) →
    ctxLookup (ctxUpdate ctx kvs) k = ctxLookup ctx k := by
  induction kvs with
  | nil => intro ctx k _; rfl
  | cons kv rest ih =>
    intro ctx k h
    have h1 : kv.1 ≠ k := h kv (List.mem_cons_self kv rest)
    have step : ctxUpdate ctx (kv :: rest) = ctxUpdate (ctxSet ctx kv.1 kv.2) rest := by
      simp [ctxUpdate]
    rw [step, ih (ctxSet ctx kv.1 kv.2) k (fun x hx => h x (List.mem_cons_of_mem kv hx))]
    unfold ctxLookup ctxSet
    rw [List.find?_cons_of_neg]
    simp [h1]

/-- C9: `show_menu` and `show_page_content` return an updated copy of the
incoming context: every key other than those each tag explicitly sets keeps
its original binding (and the incoming context value itself, being passed by
value, is untouched). -/
theorem context_copy_semantics (store : List Page) (ctx : Ctx) (a : MenuArgs)
    (pcis : List PageContentItem) (cis : List ContentItem)
    (arg : PageOrBlockName) (bn : Option String) :
    (∀ res, show_menu store ctx a = .ok res →
      ∀ k, k ≠ "Page" → k ≠ "fiber_menu_pages" → k ≠ "fiber_menu_parent_page" →
        k ≠ "fiber_menu_args" → ctxLookup res k = ctxLookup ctx k) ∧
    (∀ res, show_page_content pcis cis ctx arg bn = .ok res →
      ∀ k, k ≠ "fiber_page" → k ≠ "ContentItem" → k ≠ "fiber_block_name" →
        k ≠ "fiber_content_items" → ctxLookup res k = ctxLookup ctx k) := by
  constructor
  · intro res hres k k1 k2 k3 k4
    unfold show_menu at hres
    split at hres
    · exact absurd hres (by simp)
    · rename_i pages mp _
      cases hres
      refine ctxLookup_update_of_ne _ ctx k ?_
      intro kv hkv
      simp only [List.mem_cons, List.not_mem_nil, or_false] at hkv
      rcases hkv with rfl | rfl | rfl | rfl
      exacts [fun h => k1 h.symm, fun h => k2 h.symm, fun h => k3 h.symm, fun h => k4 h.symm]
  · intro res hres k k1 k2 k3 k4
    have handle : ∀ page block, renderPageContent pcis cis ctx page block = .ok res →
        ctxLookup res k = ctxLookup ctx k := by
      intro page block hr
      unfold renderPageContent at hr
      split at hr
      · exact absurd hr (by simp)
      · cases hr
        refine ctxLookup_update_of_ne _ ctx k ?_
        intro kv hkv
        simp only [List.mem_cons, List.not_mem_nil, or_false] at hkv
        rcases hkv with rfl | rfl | rfl | rfl
        exacts [fun h => k1 h.symm, fun h => k2 h.symm, fun h => k3 h.symm, fun h => k4 h.symm]
    cases arg with
    | str s =>
      cases bn with
      | none =>
        simp only [show_page_content] at hres
        split at hres
        · rename_i page _
          exact handle page s hres
        · exact absurd hres (by simp)
        · exact absurd hres (by simp)
      | some b =>
        simp only [show_page_content] at hres
        exact absurd hres (by simp)
    | page p =>
      cases bn with
      | none =>
        simp only [show_page_content] at hres
        exact absurd hres (by simp)
      | some b =>
        simp only [show_page_content] at hres
        split at hres
        · exact absurd hres (by simp)
        · exact handle p b hres

/-- Witness for C9 at a concrete context: an unrelated key keeps its value
through both tags. -/
theorem context_copy_semantics_witness :
    ctxLookup ((show_menu cexStore cexCtx ⟨"Main", 1, 999, none⟩).toOption.getD []) "user" =
      ctxLookup cexCtx "user" ∧
    ctxLookup ((show_page_content cexPCIs cexContentItems cexCtx
        (.str "main") none).toOption.getD []) "user" = ctxLookup cexCtx "user" := by
  constructor
  · have h := (context_copy_semantics cexStore cexCtx ⟨"Main", 1, 999, none⟩
      cexPCIs cexContentItems (.str "main") none).1
      ((show_menu cexStore cexCtx ⟨"Main", 1, 999, none⟩).toOption.getD [])
      (by decide) "user" (by decide) (by decide) (by decide) (by decide)
    exact h
  · have h := (context_copy_semantics cexStore cexCtx ⟨"Main", 1, 999, none⟩
      cexPCIs cexContentItems (.str "main") none).2
      ((show_page_content cexPCIs cexContentItems cexCtx (.str "main") none).toOption.getD [])
      (by decide) "user" (by decide) (by decide) (by decide) (by decide)
    exact h

/-! ## C10: editable_attrs rendering -/

/-- C10: when the stored variable name does not resolve in the context the
node renders the empty string; when it resolves to an entity it renders
exactly the data-fiber-data attribute whose single-quoted value is the JSON
object carrying the entity's admin change URL under the key url. -/
theorem editable_attrs_render_cases (ctx : List (String × Entity)) (v : String) :
    ((ctx.find? (fun kv => kv.1 == v)).map (fun kv => kv.2) = none →
      editableAttrsRender ctx v = "") ∧
    (∀ e, (ctx.find? (fun kv => kv.1 == v)).map (fun kv => kv.2) = some e →
      editableAttrsRender ctx v =
        "data-fiber-data=\x27" ++ jsonDumpsUrl e.admin_url ++ "\x27" ∧
      jsonDumpsUrl e.admin_url = "\x7b\"url\": \"" ++ jsonEscape e.admin_url ++ "\"\x7d") := by
  constructor
  · intro h
    unfold editableAttrsRender
    rw [h]
  · intro e h
    constructor
    · unfold editableAttrsRender
      rw [h]
      rfl
    · rfl

/-- Witness for C10: an unresolvable name renders empty, a resolvable one
renders the attribute string. -/
theorem editable_attrs_render_cases_witness :
    editableAttrsRender [("page", cexEntity)] "missing" = "" ∧
    editableAttrsRender [("page", cexEntity)] "page" =
      "data-fiber-data=\x27" ++ jsonDumpsUrl cexEntity.admin_url ++ "\x27" :=
  ⟨(editable_attrs_render_cases [("page", cexEntity)] "missing").1 rfl,
   ((editable_attrs_render_cases [("page", cexEntity)] "page").2 cexEntity rfl).1⟩

/-! ## C1: selection with no current page in the tree -/

def cexArgsEmptyExpand : MenuArgs := ⟨"Main", 1, 999, some ""⟩

/-- Counterexample to C1 as stated: with min_level = 1 and the falsy
empty-string expand — which is neither none, nor "all", nor
"all_descendants" — the claim predicts an empty selection, but the code
treats the empty string like no expansion and selects the level-≤-1 nodes. -/
theorem menu_selection_no_current_counterexample :
    cexArgsEmptyExpand.min_level = 1 ∧
    cexArgsEmptyExpand.expand ≠ none ∧
    cexArgsEmptyExpand.expand ≠ some "all" ∧
    cexArgsEmptyExpand.expand ≠ some "all_descendants" ∧
    selectNotInTree cexStore pgMain cexArgsEmptyExpand = [pgMain, pgA, pgB] ∧
    getMenuPages cexStore none cexArgsEmptyExpand = .ok [pgA, pgB] := by
  decide

/-- C1 (amended): with no current page inside the tree, the selection is the
level-≤-1 nodes of the root's tree when min_level = 1 and expand is falsy
(none or the empty string); the level-≤-max_level nodes when min_level = 1
and expand = "all"; and empty in every other case.  The last conjunct anchors
the selection step inside `get_menu` for an absent current page. -/
theorem menu_selection_no_current_amended (store : List Page) (root : Page) (a : MenuArgs) :
    (a.min_level = 1 → expandFalsy a.expand = true →
      selectNotInTree store root a =
        store.filter (fun p => p.level ≤ 1 && p.tree_id == root.tree_id)) ∧
    (a.min_level = 1 → a.expand = some "all" →
      selectNotInTree store root a =
        store.filter (fun p => p.level ≤ a.max_level && p.tree_id == root.tree_id)) ∧
    (a.min_level ≠ 1 → selectNotInTree store root a = []) ∧
    (a.min_level = 1 → expandFalsy a.expand = false → a.expand ≠ some "all" →
      selectNotInTree store root a = []) ∧
    getMenu store none a = (getRoot store a.menu_name).map
      (fun r => postProcess store r a (selectNotInTree store r a)) := by
  refine ⟨?_, ?_, ?_, ?_, ?_⟩
  · intro h1 h2
    rw [selectNotInTree, if_pos h1, if_pos h2, List.filter_filter]
  · intro h1 h2
    have hfalsy : expandFalsy a.expand = false := by rw [h2]; rfl
    rw [selectNotInTree, if_pos h1, hfalsy]
    simp only [Bool.false_eq_true, if_false]
    rw [if_pos h2, List.filter_filter]
  · intro h1
    rw [selectNotInTree, if_neg h1]
  · intro h1 h2 h3
    rw [selectNotInTree, if_pos h1, h2]
    simp only [Bool.false_eq_true, if_false]
    rw [if_neg h3]
  · cases hr : getRoot store a.menu_name <;> simp [getMenu, hr, Except.map]

/-- Witness for C1 (amended) at the concrete store. -/
theorem menu_selection_no_current_amended_witness :
    selectNotInTree cexStore pgMain ⟨"Main", 1, 999, none⟩ =
      cexStore.filter (fun p => p.level ≤ 1 && p.tree_id == pgMain.tree_id) ∧
    selectNotInTree cexStore pgMain ⟨"Main", 1, 2, some "all"⟩ =
      cexStore.filter (fun p => p.level ≤ 2 && p.tree_id == pgMain.tree_id) ∧
    selectNotInTree cexStore pgMain ⟨"Main", 2, 999, none⟩ = [] ∧
    selectNotInTree cexStore pgMain ⟨"Main", 1, 999, some "all_descendants"⟩ = [] :=
  ⟨(menu_selection_no_current_amended cexStore pgMain ⟨"Main", 1, 999, none⟩).1 rfl rfl,
   (menu_selection_no_current_amended cexStore pgMain ⟨"Main", 1, 2, some "all"⟩).2.1 rfl rfl,
   (menu_selection_no_current_amended cexStore pgMain ⟨"Main", 2, 999, none⟩).2.2.1 (by decide),
   (menu_selection_no_current_amended cexStore pgMain
     ⟨"Main", 1, 999, some "all_descendants"⟩).2.2.2.1 rfl rfl (by decide)⟩

/-! ## C7: page content block resolution -/

theorem resolve_map_proj {cis : List ContentItem} :
    ∀ {l : List PageContentItem} {items : List AnnotatedContentItem},
    resolveContentItems cis l = some items →
    items.map (fun x => x.page_content_item) = l := by
  intro l
  induction l with
  | nil =>
    intro items h
    simp only [resolveContentItems] at h
    injection h with h
    subst h
    rfl
  | cons a rest ih =>
    intro items h
    unfold resolveContentItems at h
    split at h
    · exact absurd h (by simp)
    · rename_i c hc
      cases hrec : resolveContentItems cis rest with
      | none => rw [hrec] at h; exact absurd h (by simp)
      | some xs =>
        rw [hrec] at h
        simp only [Option.map] at h
        injection h with h
        subst h
        simp only [List.map_cons]
        rw [ih hrec]

theorem resolve_find {cis : List ContentItem} :
    ∀ {l : List PageContentItem} {items : List AnnotatedContentItem},
    resolveContentItems cis l = some items →
    ∀ x ∈ items, cis.find? (fun c => c.id == x.page_content_item.content_item_id) = some x.item := by
  intro l
  induction l with
  | nil =>
    intro items h
    simp only [resolveContentItems] at h
    injection h with h
    subst h
    intro x hx
    exact absurd hx (List.not_mem_nil x)
  | cons a rest ih =>
    intro items h
    unfold resolveContentItems at h
    split at h
    · exact absurd h (by simp)
    · rename_i c hc
      cases hrec : resolveContentItems cis rest with
      | none => rw [hrec] at h; exact absurd h (by simp)
      | some xs =>
        rw [hrec] at h
        simp only [Option.map] at h
        injection h with h
        subst h
        intro x hx
        rcases List.mem_cons.mp hx with rfl | hx
        · exact hc
        · exact ih hrec x hx

/-- C7: content block resolution returns exactly the associations of the page
in the named block, each annotated with its association record and resolving
its content item; the output is ordered by ascending sort, and ties keep the
stable store order (any tied pair in store order stays in that order). -/
theorem page_content_block_resolution (pcis : List PageContentItem) (cis : List ContentItem)
    (page : Page) (block : String) (items : List AnnotatedContentItem)
    (h : pageContentItemsFor pcis cis page block = some items) :
    (∀ x ∈ items, x.page_content_item ∈ pcis ∧ x.page_content_item.page_id = page.id ∧
      x.page_content_item.block_name = block ∧
      cis.find? (fun c => c.id == x.page_content_item.content_item_id) = some x.item) ∧
    (∀ pc ∈ pcis, pc.page_id = page.id → pc.block_name = block →
      ∃ x ∈ items, x.page_content_item = pc) ∧
    items.Pairwise (fun x y => x.page_content_item.sort ≤ y.page_content_item.sort) ∧
    (∀ pc1 pc2, [pc1, pc2].Sublist
        (pcis.filter (fun pc => pc.page_id == page.id && pc.block_name == block)) →
      pc1.sort = pc2.sort →
      [pc1, pc2].Sublist (items.map (fun x => x.page_content_item))) := by
  unfold pageContentItemsFor at h
  have hproj := resolve_map_proj h
  refine ⟨?_, ?_, ?_, ?_⟩
  · intro x hx
    have hmem : x.page_content_item ∈ pageContentQuery pcis page block := by
      rw [← hproj]; exact List.mem_map_of_mem _ hx
    have hmf : x.page_content_item ∈
        pcis.filter (fun pc => pc.page_id == page.id && pc.block_name == block) := by
      unfold pageContentQuery at hmem
      exact (List.mem_insertionSort pciLe).mp hmem
    have hsplit := List.mem_filter.mp hmf
    have hpred := hsplit.2
    simp only [Bool.and_eq_true, beq_iff_eq] at hpred
    exact ⟨hsplit.1, hpred.1, hpred.2, resolve_find h x hx⟩
  · intro pc hpc h1 h2
    have hmf : pc ∈ pcis.filter (fun pc => pc.page_id == page.id && pc.block_name == block) :=
      List.mem_filter.mpr ⟨hpc, by simp [h1, h2]⟩
    have hmem : pc ∈ pageContentQuery pcis page block := by
      unfold pageContentQuery
      exact (List.mem_insertionSort pciLe).mpr hmf
    rw [← hproj] at hmem
    obtain ⟨x, hx, hxe⟩ := List.mem_map.mp hmem
    exact ⟨x, hx, hxe⟩
  · have hs : List.Sorted pciLe (pageContentQuery pcis page block) :=
      List.sorted_insertionSort pciLe _
    rw [← hproj] at hs
    have hp := List.pairwise_map.mp hs
    exact hp
  · intro pc1 pc2 hsub heq
    have hres : [pc1, pc2].Sublist (pageContentQuery pcis page block) := by
      unfold pageContentQuery
      exact List.pair_sublist_insertionSort (r := pciLe) (Nat.le_of_eq heq) hsub
    rw [← hproj] at hres
    exact hres

/-- The concrete annotated result for the example fixtures: the tied
associations (sort 1) keep their store order, followed by the sort-2 one. -/
def cexAnnotated : List AnnotatedContentItem :=
  [⟨ciBody, pciB⟩, ⟨ciFooter, pciC⟩, ⟨ciFooter, pciA⟩]

/-- Witness for C7 at the concrete fixtures. -/
theorem page_content_block_resolution_witness :
    pageContentItemsFor cexPCIs cexContentItems pgA "main" = some cexAnnotated ∧
    cexAnnotated.Pairwise (fun x y => x.page_content_item.sort ≤ y.page_content_item.sort) ∧
    [pciB, pciC].Sublist (cexAnnotated.map (fun x => x.page_content_item)) := by
  refine ⟨by decide, ?_, ?_⟩
  · exact (page_content_block_resolution cexPCIs cexContentItems pgA "main" cexAnnotated
      (by decide)).2.2.1
  · exact (page_content_block_resolution cexPCIs cexContentItems pgA "main" cexAnnotated
      (by decide)).2.2.2 pciB pciC (by decide) rfl

/-! ## C2: menu for a current page inside the tree -/

theorem findById_of_wf {store : List Page} (wf : wfStore store) {c : Page} {pid : Nat}
    (hc : c ∈ store) (hp : c.parent = some pid) :
    ∃ par, findById store pid = some par ∧ par ∈ store ∧ par.tree_id = c.tree_id ∧
      par.lft < c.lft ∧ c.rght < par.rght ∧ par.level + 1 = c.level := by
  have hmemtl : pid ∈ c.parent.toList := by rw [hp]; simp
  obtain ⟨q, hq, hqid, hqtree, hqlft, hqrght, hqlev⟩ := wf.2.2.2 c hc pid hmemtl
  have hsome : (store.find? (fun r => r.id == pid)).isSome :=
    List.find?_isSome.mpr ⟨q, hq, by simp [hqid]⟩
  obtain ⟨par, hfind⟩ := Option.isSome_iff_exists.mp hsome
  have hparmem : par ∈ store := List.mem_of_find?_eq_some hfind
  have hparid : par.id = pid := by
    have := List.find?_some hfind
    simpa using this
  have hpq : par = q := wf.1 par hparmem q hq (by rw [hparid, hqid])
  subst hpq
  exact ⟨par, hfind, hparmem, hqtree, hqlft, hqrght, hqlev⟩

theorem ancestorChain_spec {store : List Page} (wf : wfStore store) :
    ∀ (fuel : Nat) (c : Page), c ∈ store →
    ∃ ch, ancestorChain store c fuel = some ch ∧
      (∀ pr ∈ ch, pr.1.level ≤ c.level) ∧
      (c.parent.isSome → fuel ≠ 0 → ch ≠ []) := by
  intro fuel
  induction fuel with
  | zero =>
    intro c hc
    exact ⟨[], rfl, by simp, fun _ h => absurd rfl h⟩
  | succ n ih =>
    intro c hc
    cases hp : c.parent with
    | none =>
      refine ⟨[], ?_, by simp, ?_⟩
      · unfold ancestorChain; rw [hp]
      · intro hs _
        exact absurd hs (by simp)
    | some pid =>
      obtain ⟨par, hfind, hparmem, _, _, _, hlev⟩ := findById_of_wf wf hc hp
      obtain ⟨rest, hrest, hlevs, _⟩ := ih par hparmem
      refine ⟨(c, par) :: rest, ?_, ?_, by simp⟩
      · simp only [ancestorChain, hp, hfind, hrest, Option.map]
      · intro pr hpr
        rcases List.mem_cons.mp hpr with rfl | hpr
        · exact Nat.le_refl _
        · exact Nat.le_trans (hlevs pr hpr) (by omega)

/-- C2: for a current page strictly inside the root's tree with no expansion,
the final menu output equals the union of the strict ancestors of the current
page within the level-bounded subtree, the route siblings along the parent
chain, and the immediate children of the current page — minus nodes below
min_level, minus invisible nodes, sorted by lft (the `menuSpecC2` formula). -/
theorem menu_for_current_page_spec (store : List Page) (a : MenuArgs) (root current : Page)
    (wf : wfStore store) (hc : current ∈ store)
    (hroot : getRoot store a.menu_name = .ok root)
    (hchild : isChildOf current root = true)
    (hexp : a.expand = none) :
    getMenuPages store (some current) a = .ok (menuSpecC2 store root current a) := by
  obtain ⟨hrootmem, _, _⟩ := getRoot_eq_ok hroot
  have hch := hchild
  unfold isChildOf at hch
  simp only [Bool.and_eq_true, beq_iff_eq, decide_eq_true_eq] at hch
  obtain ⟨⟨htree, hlft⟩, hrght⟩ := hch
  have hpar : current.parent.isSome := by
    cases hp : current.parent with
    | some pid => rfl
    | none =>
      exfalso
      have h0 : current.level = 0 := wf.2.2.1 current hc hp
      have hlt : root.level < current.level :=
        wf.2.1 current hc root hrootmem htree hlft hrght
      omega
  obtain ⟨ch, hchain, hchlev, hchne⟩ := ancestorChain_spec wf store.length current hc
  have hstepOk : ∀ needed, getMenuForCurrentPage store root current a = .ok needed →
      getMenu store (some current) a = .ok (postProcess store root a needed) := by
    intro needed hnp
    simp only [getMenu, hroot, hchild, if_true, hnp]
  by_cases hml : current.level + 1 < a.min_level
  · -- short-circuit: the code selects nothing; the spec formula also empties
    have hcode : getMenuForCurrentPage store root current a = .ok [] := by
      simp only [getMenuForCurrentPage, hexp]
      rw [if_neg (by simp), if_pos hml]
    have hlow : ∀ q ∈ menuTree store root a.max_level,
        ((q.lft < current.lft && current.rght < q.rght) ||
         ch.any (fun pr => q.level == pr.1.level && pr.2.lft < q.lft && q.rght < pr.2.rght) ||
         (current.lft < q.lft && q.rght < current.rght && q.level == current.level + 1))
          = true →
        q.level < a.min_level := by
      intro q hq hbig
      have hqtree := List.mem_filter.mp hq
      have hqdesc := List.mem_filter.mp hqtree.1
      have hqstore : q ∈ store := hqdesc.1
      have hqpred := hqdesc.2
      simp only [Bool.and_eq_true, beq_iff_eq, decide_eq_true_eq] at hqpred
      obtain ⟨⟨hqt, _⟩, _⟩ := hqpred
      simp only [Bool.or_eq_true] at hbig
      rcases hbig with (hb2 | hb2) | hb
      · -- route: a strict interval ancestor has a smaller level
        simp only [Bool.and_eq_true, decide_eq_true_eq] at hb2
        have : q.level < current.level := by
          refine wf.2.1 current hc q hqstore ?_ hb2.1 hb2.2
          rw [htree, hqt]
        omega
      · -- route sibling: chain node levels are at most the current level
        simp only [List.any_eq_true, Bool.and_eq_true, beq_iff_eq,
          decide_eq_true_eq] at hb2
        obtain ⟨pr, hpr, hqlev, _⟩ := hb2
        have := hchlev pr hpr
        omega
      · -- child: exactly one level below the current page
        simp only [Bool.and_eq_true, beq_iff_eq, decide_eq_true_eq] at hb
        omega
    have hemp : ((menuTree store root a.max_level).filter (fun q =>
          (q.lft < current.lft && current.rght < q.rght) ||
          ch.any (fun pr => q.level == pr.1.level && pr.2.lft < q.lft && q.rght < pr.2.rght) ||
          (current.lft < q.lft && q.rght < current.rght && q.level == current.level + 1))).filter
        (fun p => a.min_level ≤ p.level) = [] := by
      refine List.filter_eq_nil_iff.mpr ?_
      intro q hq
      have hqm := List.mem_filter.mp hq
      have := hlow q hqm.1 hqm.2
      simp only [decide_eq_true_eq]
      omega
    have hspec : menuSpecC2 store root current a = [] := by
      simp only [menuSpecC2]
      rw [hchain]
      simp only [Option.getD_some]
      rw [hemp]
      rfl
    have hfinal := hstepOk [] hcode
    simp only [getMenuPages, hfinal, Except.map]
    rw [hspec]
    rfl
  · -- regular case: both sides compute the same filtered union
    have hlen : store.length ≠ 0 := by
      intro h0
      rw [List.length_eq_zero] at h0
      rw [h0] at hc
      exact absurd hc (List.not_mem_nil _)
    have hne : ch ≠ [] := hchne hpar hlen
    obtain ⟨pr0, chtl, hchcons⟩ := List.exists_cons_of_ne_nil hne
    have hcode : getMenuForCurrentPage store root current a =
        .ok ((menuTree store root a.max_level).filter (fun q =>
          routePred current q || siblingPred ch q || childPred none current q)) := by
      simp only [getMenuForCurrentPage, hexp]
      rw [if_neg (by simp), if_neg hml, hchain, hchcons]
    have hfe : (menuTree store root a.max_level).filter (fun q =>
          routePred current q || siblingPred ch q || childPred none current q) =
        (menuTree store root a.max_level).filter (fun q =>
          (q.lft < current.lft && current.rght < q.rght) ||
          ch.any (fun pr => q.level == pr.1.level && pr.2.lft < q.lft && q.rght < pr.2.rght) ||
          (current.lft < q.lft && q.rght < current.rght && q.level == current.level + 1)) := by
      refine List.filter_congr ?_
      intro q _
      simp [routePred, siblingPred, childPred]
    have hfinal := hstepOk _ hcode
    simp only [getMenuPages, hfinal, Except.map]
    simp only [menuSpecC2]
    rw [hchain]
    simp only [Option.getD_some]
    simp only [postProcess]
    unfold filter_for_user filter_min_level
    exact congrArg Except.ok
      (congrArg (List.insertionSort pageLe)
        (congrArg (List.filter visible)
          (congrArg (List.filter (fun p => a.min_level ≤ p.level)) hfe)))

/-- Witness for C2 at the concrete store, with the grandchild of A as the
current page. -/
theorem menu_for_current_page_spec_witness :
    getMenuPages cexStore (some pgA1a) ⟨"Main", 1, 999, none⟩ =
      .ok (menuSpecC2 cexStore pgMain pgA1a ⟨"Main", 1, 999, none⟩) ∧
    menuSpecC2 cexStore pgMain pgA1a ⟨"Main", 1, 999, none⟩ = [pgA, pgA1, pgA1a, pgB] := by
  constructor
  · exact menu_for_current_page_spec cexStore ⟨"Main", 1, 999, none⟩ pgMain pgA1a
      (by unfold wfStore; decide) (by decide) (by decide) (by decide) rfl
  · decide

/-! ## C5: visibility filtering is monotonic -/

theorem hPage_id (n : Nat) (b : Bool) (p : Page) : (hPage n b p).id = p.id := by
  unfold hPage hideUpdate
  split
  · split <;> rfl
  · rfl

theorem hPage_title (n : Nat) (b : Bool) (p : Page) : (hPage n b p).title = p.title := by
  unfold hPage hideUpdate
  split
  · split <;> rfl
  · rfl

theorem hPage_parent (n : Nat) (b : Bool) (p : Page) : (hPage n b p).parent = p.parent := by
  unfold hPage hideUpdate
  split
  · split <;> rfl
  · rfl

theorem hPage_level (n : Nat) (b : Bool) (p : Page) : (hPage n b p).level = p.level := by
  unfold hPage hideUpdate
  split
  · split <;> rfl
  · rfl

theorem hPage_lft (n : Nat) (b : Bool) (p : Page) : (hPage n b p).lft = p.lft := by
  unfold hPage hideUpdate
  split
  · split <;> rfl
  · rfl

theorem hPage_rght (n : Nat) (b : Bool) (p : Page) : (hPage n b p).rght = p.rght := by
  unfold hPage hideUpdate
  split
  · split <;> rfl
  · rfl

theorem hPage_tree_id (n : Nat) (b : Bool) (p : Page) : (hPage n b p).tree_id = p.tree_id := by
  unfold hPage hideUpdate
  split
  · split <;> rfl
  · rfl

theorem visible_hPage (n : Nat) (b : Bool) (p : Page) :
    visible (hPage n b p) = (!(p.id == n) && visible p) := by
  unfold visible hPage hideUpdate
  by_cases h : p.id = n <;> by_cases hb : b <;> simp [h, hb]

/-- Filtering the hidden store by a predicate blind to the hidden fields is
the image of filtering the original store. -/
theorem filter_map_hide (store : List Page) (n : Nat) (b : Bool) (P : Page → Bool)
    (hP : ∀ p, P (hPage n b p) = P p) :
    (hideStore store n b).filter P = (store.filter P).map (hPage n b) := by
  unfold hideStore
  rw [List.map_filter]
  congr 1
  exact List.filter_congr (fun p _ => hP p)

theorem findById_hide (store : List Page) (n : Nat) (b : Bool) (pid : Nat) :
    findById (hideStore store n b) pid = (findById store pid).map (hPage n b) := by
  unfold findById hideStore
  rw [List.find?_map]
  have hpred : ((fun q => q.id == pid) ∘ hPage n b) = (fun q => q.id == pid) := by
    funext q
    simp [Function.comp, hPage_id]
  rw [hpred]

/-- The data of a chain pair the sibling query reads. -/
def sibKey (pr : Page × Page) : Nat × Nat × Nat := (pr.1.level, pr.2.lft, pr.2.rght)

theorem ancestorChain_hide (store : List Page) (n : Nat) (b : Bool) :
    ∀ (fuel : Nat) (c c' : Page), c'.parent = c.parent → c'.level = c.level →
    Option.map (List.map sibKey) (ancestorChain (hideStore store n b) c' fuel) =
      Option.map (List.map sibKey) (ancestorChain store c fuel) := by
  intro fuel
  induction fuel with
  | zero => intro c c' _ _; rfl
  | succ m ih =>
    intro c c' hpar hlev
    unfold ancestorChain
    rw [hpar]
    cases hp : c.parent with
    | none => rfl
    | some pid =>
      simp only []
      rw [findById_hide store n b]
      cases hf : findById store pid with
      | none => rfl
      | some par =>
        simp only [Option.map]
        have hrec := ih par (hPage n b par) (hPage_parent n b par) (hPage_level n b par)
        cases h1 : ancestorChain (hideStore store n b) (hPage n b par) m with
        | none =>
          rw [h1] at hrec
          cases h2 : ancestorChain store par m with
          | none => rfl
          | some r2 => rw [h2] at hrec; exact absurd hrec (by simp)
        | some r1 =>
          rw [h1] at hrec
          cases h2 : ancestorChain store par m with
          | none => rw [h2] at hrec; exact absurd hrec (by simp)
          | some r2 =>
            rw [h2] at hrec
            simp only [Option.map, Option.some.injEq] at hrec
            simp only [List.map_cons, Option.some.injEq]
            rw [hrec]
            congr 1
            simp [sibKey, hPage_lft, hPage_rght, hlev]

theorem siblingPred_eq_keys {ch1 ch2 : List (Page × Page)}
    (hk : ch1.map sibKey = ch2.map sibKey) (q : Page) :
    siblingPred ch1 q = siblingPred ch2 q := by
  unfold siblingPred
  have h1 : ∀ ch : List (Page × Page), ch.any
      (fun pr => q.level == pr.1.level && pr.2.lft < q.lft && q.rght < pr.2.rght) =
      (ch.map sibKey).any (fun k => q.level == k.1 && k.2.1 < q.lft && q.rght < k.2.2) := by
    intro ch
    induction ch with
    | nil => rfl
    | cons x t iht =>
      simp only [List.any_cons, List.map_cons, sibKey]
      rw [iht]
  rw [h1, h1, hk]

theorem routePred_hPage (n : Nat) (b : Bool) (current q : Page) :
    routePred current (hPage n b q) = routePred current q := by
  unfold routePred
  rw [hPage_lft, hPage_rght]

theorem childPred_hPage (n : Nat) (b : Bool) (e : Option String) (current q : Page) :
    childPred e current (hPage n b q) = childPred e current q := by
  unfold childPred
  rw [hPage_lft, hPage_rght, hPage_level]

theorem siblingPred_hPage (n : Nat) (b : Bool) (ch : List (Page × Page)) (q : Page) :
    siblingPred ch (hPage n b q) = siblingPred ch q := by
  unfold siblingPred
  simp only [hPage_level, hPage_lft, hPage_rght]

theorem menuTree_hide (store : List Page) (n : Nat) (b : Bool) (root : Page) (maxl : Nat) :
    menuTree (hideStore store n b) (hPage n b root) maxl =
      (menuTree store root maxl).map (hPage n b) := by
  unfold menuTree descendantsIncludeSelf
  rw [filter_map_hide store n b _ (fun p => by
    simp only [hPage_tree_id, hPage_lft, hPage_rght])]
  rw [List.map_filter]
  have hL : ((fun p => decide (p.level ≤ maxl)) ∘ hPage n b) =
      (fun p => decide (p.level ≤ maxl)) := by
    funext p
    simp [Function.comp, hPage_level]
  rw [hL]
  have hPP : store.filter (fun p => p.tree_id == (hPage n b root).tree_id &&
        (hPage n b root).lft ≤ p.lft && p.rght ≤ (hPage n b root).rght) =
      store.filter (fun p => p.tree_id == root.tree_id &&
        root.lft ≤ p.lft && p.rght ≤ root.rght) :=
    List.filter_congr (fun p _ => by rw [hPage_tree_id, hPage_lft, hPage_rght])
  rw [hPP]

theorem selectNotInTree_hide (store : List Page) (n : Nat) (b : Bool) (root : Page)
    (a : MenuArgs) :
    selectNotInTree (hideStore store n b) (hPage n b root) a =
      (selectNotInTree store root a).map (hPage n b) := by
  unfold selectNotInTree
  by_cases h1 : a.min_level = 1
  · rw [if_pos h1, if_pos h1]
    by_cases h2 : expandFalsy a.expand = true
    · rw [if_pos h2, if_pos h2]
      rw [filter_map_hide store n b _ (fun p => by simp only [hPage_tree_id])]
      rw [List.map_filter]
      have hL : ((fun p => decide (p.level ≤ 1)) ∘ hPage n b) =
          (fun p => decide (p.level ≤ 1)) := by
        funext p
        simp [Function.comp, hPage_level]
      rw [hL]
      have hPP : store.filter (fun p => p.tree_id == (hPage n b root).tree_id) =
          store.filter (fun p => p.tree_id == root.tree_id) :=
        List.filter_congr (fun p _ => by rw [hPage_tree_id])
      rw [hPP]
    · rw [if_neg h2, if_neg h2]
      by_cases h3 : a.expand = some "all"
      · rw [if_pos h3, if_pos h3]
        rw [filter_map_hide store n b _ (fun p => by simp only [hPage_tree_id])]
        rw [List.map_filter]
        have hL : ((fun p => decide (p.level ≤ a.max_level)) ∘ hPage n b) =
            (fun p => decide (p.level ≤ a.max_level)) := by
          funext p
          simp [Function.comp, hPage_level]
        rw [hL]
        have hPP : store.filter (fun p => p.tree_id == (hPage n b root).tree_id) =
            store.filter (fun p => p.tree_id == root.tree_id) :=
          List.filter_congr (fun p _ => by rw [hPage_tree_id])
        rw [hPP]
      · rw [if_neg h3, if_neg h3]
        rfl
  · rw [if_neg h1, if_neg h1]
    rfl

theorem getRoot_hide (store : List Page) (n : Nat) (b : Bool) (nm : String) :
    getRoot (hideStore store n b) nm = (getRoot store nm).map (hPage n b) := by
  unfold getRoot
  rw [filter_map_hide store n b _ (fun p => by
    simp only [hPage_title, hPage_parent])]
  cases hF : store.filter (fun p => p.title == nm && p.parent == none) with
  | nil => rfl
  | cons x t =>
    cases t with
    | nil => rfl
    | cons y t2 => rfl

theorem isChildOf_hide_root (n : Nat) (b : Bool) (current root : Page) :
    isChildOf current (hPage n b root) = isChildOf current root := by
  unfold isChildOf
  rw [hPage_tree_id, hPage_lft, hPage_rght]

theorem getMenuForCurrentPage_hide (store : List Page) (n : Nat) (b : Bool)
    (root current : Page) (a : MenuArgs) :
    getMenuForCurrentPage (hideStore store n b) (hPage n b root) current a =
      (getMenuForCurrentPage store root current a).map (fun l => l.map (hPage n b)) := by
  unfold getMenuForCurrentPage
  by_cases hall : a.expand = some "all"
  · rw [if_pos hall, if_pos hall]
    simp only [Except.map]
    rw [menuTree_hide]
  · rw [if_neg hall, if_neg hall]
    by_cases hml : current.level + 1 < a.min_level
    · rw [if_pos hml, if_pos hml]
      rfl
    · rw [if_neg hml, if_neg hml]
      have hlen : (hideStore store n b).length = store.length := List.length_map _ _
      rw [hlen]
      have hch := ancestorChain_hide store n b store.length current current rfl rfl
      cases h2 : ancestorChain store current store.length with
      | none =>
        rw [h2] at hch
        have h1 : ancestorChain (hideStore store n b) current store.length = none := by
          cases h1 : ancestorChain (hideStore store n b) current store.length with
          | none => rfl
          | some r1 => rw [h1] at hch; exact absurd hch (by simp)
        rw [h1]
        rfl
      | some ch =>
        rw [h2] at hch
        obtain ⟨chh, h1, hk⟩ : ∃ chh,
            ancestorChain (hideStore store n b) current store.length = some chh ∧
            chh.map sibKey = ch.map sibKey := by
          cases h1 : ancestorChain (hideStore store n b) current store.length with
          | none => rw [h1] at hch; exact absurd hch (by simp)
          | some r1 =>
            rw [h1] at hch
            simp only [Option.map, Option.some.injEq] at hch
            exact ⟨r1, rfl, hch⟩
        rw [h1]
        cases hc0 : ch with
        | nil =>
          have hnil : chh = [] := by
            rw [hc0] at hk
            exact List.map_eq_nil_iff.mp hk
          rw [hnil]
          rfl
        | cons x xs =>
          have hcons : ∃ y ys, chh = y :: ys := by
            rw [hc0] at hk
            cases chh with
            | nil => exact absurd hk (by simp)
            | cons y ys => exact ⟨y, ys, rfl⟩
          obtain ⟨y, ys, hys⟩ := hcons
          rw [hc0] at hk
          rw [hys] at hk ⊢
          simp only [Except.map]
          congr 1
          rw [menuTree_hide, List.map_filter]
          refine congrArg (List.map (hPage n b)) ?_
          refine List.filter_congr ?_
          intro q _
          simp only [Function.comp]
          rw [routePred_hPage, childPred_hPage, siblingPred_hPage]
          rw [siblingPred_eq_keys hk q]

/-- C5: hiding one node (clearing its menu flag, or making the visibility
predicate reject it) removes exactly that node from the menu output: the run
on the altered store still succeeds, the hidden node never appears, and every
other node's membership — including nodes reached by the route-sibling walk
through the hidden node's ancestors — is unchanged. -/
theorem visibility_filter_monotonic (store : List Page) (pg : Option Page) (a : MenuArgs)
    (n : Nat) (b : Bool) (l1 : List Page)
    (h1 : getMenuPages store pg a = .ok l1) :
    ∃ l2, getMenuPages (hideStore store n b) pg a = .ok l2 ∧
      (∀ q ∈ l2, q.id ≠ n) ∧
      (∀ q : Page, q ∈ l2 ↔ (q ∈ l1 ∧ q.id ≠ n)) := by
  simp only [getMenuPages, getMenu] at h1 ⊢
  cases hr : getRoot store a.menu_name with
  | error e =>
    rw [hr] at h1
    exact absurd h1 (by simp [Except.map])
  | ok root =>
    rw [hr] at h1
    simp only [] at h1
    rw [getRoot_hide store n b a.menu_name, hr]
    simp only [Except.map]
    have hneed : (match pg with
        | some current =>
          if isChildOf current (hPage n b root) = true then
            getMenuForCurrentPage (hideStore store n b) (hPage n b root) current a
          else Except.ok (selectNotInTree (hideStore store n b) (hPage n b root) a)
        | none => Except.ok (selectNotInTree (hideStore store n b) (hPage n b root) a)) =
        (match pg with
        | some current =>
          if isChildOf current root = true then getMenuForCurrentPage store root current a
          else Except.ok (selectNotInTree store root a)
        | none => Except.ok (selectNotInTree store root a)).map
          (fun l : List Page => l.map (hPage n b)) := by
      cases pg with
      | none =>
        simp only [Except.map]
        rw [selectNotInTree_hide]
      | some current =>
        simp only []
        rw [isChildOf_hide_root]
        by_cases hco : isChildOf current root = true
        · rw [if_pos hco, if_pos hco]
          exact getMenuForCurrentPage_hide store n b root current a
        · rw [if_neg hco, if_neg hco]
          simp only [Except.map]
          rw [selectNotInTree_hide]
    rw [hneed]
    cases hn : (match pg with
        | some current =>
          if isChildOf current root = true then getMenuForCurrentPage store root current a
          else Except.ok (selectNotInTree store root a)
        | none => Except.ok (selectNotInTree store root a)) with
    | error e =>
      rw [hn] at h1
      exact absurd h1 (by simp [Except.map])
    | ok needed =>
      rw [hn] at h1
      simp only [Except.map, postProcess, Except.ok.injEq] at h1 ⊢
      -- the pipeline over the hidden store
      have hmin : filter_min_level a.min_level (needed.map (hPage n b)) =
          (filter_min_level a.min_level needed).map (hPage n b) := by
        unfold filter_min_level
        rw [List.map_filter]
        congr 1
        refine List.filter_congr ?_
        intro p _
        simp [Function.comp, hPage_level]
      have hvis : filter_for_user ((filter_min_level a.min_level needed).map (hPage n b)) =
          ((filter_min_level a.min_level needed).filter
            (fun p => !(p.id == n) && visible p)).map (hPage n b) := by
        unfold filter_for_user
        rw [List.map_filter]
        congr 1
        refine List.filter_congr ?_
        intro p _
        exact visible_hPage n b p
      have hid : ((filter_min_level a.min_level needed).filter
            (fun p => !(p.id == n) && visible p)).map (hPage n b) =
          (filter_min_level a.min_level needed).filter
            (fun p => !(p.id == n) && visible p) := by
        refine (List.map_congr_left ?_).trans (List.map_id _)
        intro p hp
        have := (List.mem_filter.mp hp).2
        simp only [Bool.and_eq_true, Bool.not_eq_true', beq_eq_false_iff_ne] at this
        unfold hPage
        rw [if_neg this.1]
        rfl
      refine ⟨_, rfl, ?_, ?_⟩
      · intro q hq
        rw [hmin, hvis, hid] at hq
        have hq2 := List.mem_insertionSort pageLe |>.mp hq
        have := (List.mem_filter.mp hq2).2
        simp only [Bool.and_eq_true, Bool.not_eq_true', beq_eq_false_iff_ne] at this
        exact this.1
      · intro q
        rw [hmin, hvis, hid, ← h1]
        constructor
        · intro hq
          have hq2 := List.mem_insertionSort pageLe |>.mp hq
          have hsplit := List.mem_filter.mp hq2
          have hpred := hsplit.2
          simp only [Bool.and_eq_true, Bool.not_eq_true', beq_eq_false_iff_ne] at hpred
          refine ⟨?_, hpred.1⟩
          refine (List.mem_insertionSort pageLe).mpr ?_
          exact List.mem_filter.mpr ⟨hsplit.1, hpred.2⟩
        · rintro ⟨hq, hne⟩
          have hq2 := List.mem_insertionSort pageLe |>.mp hq
          have hsplit := List.mem_filter.mp hq2
          refine (List.mem_insertionSort pageLe).mpr ?_
          refine List.mem_filter.mpr ⟨hsplit.1, ?_⟩
          simp only [Bool.and_eq_true, Bool.not_eq_true', beq_eq_false_iff_ne]
          exact ⟨hne, hsplit.2⟩

/-- Witness for C5: hiding page B (id 5) of the concrete store removes
exactly B from the menu computed around the current page A1a. -/
theorem visibility_filter_monotonic_witness :
    ∃ l2, getMenuPages (hideStore cexStore 5 true) (some pgA1a)
        ⟨"Main", 1, 999, none⟩ = .ok l2 ∧
      (∀ q ∈ l2, q.id ≠ 5) ∧
      (∀ q : Page, q ∈ l2 ↔ (q ∈ [pgA, pgA1, pgA1a, pgB] ∧ q.id ≠ 5)) :=
  visibility_filter_monotonic cexStore (some pgA1a) ⟨"Main", 1, 999, none⟩ 5 true
    [pgA, pgA1, pgA1a, pgB] (by decide)

end FiberSpec
